import Mathlib

/-!
Verification development for the two scoring engines of the repository:
the user-compatibility scorer (`app/services/user_matching.py`) and the
extractive summarizer (`app/services/topic_extraction.py`).

Modelling conventions:
* Python floats are modelled exactly as rationals (`ℚ`); decimal literals
  in the source become the corresponding rational literals.
* Python strings are modelled as `String` / `List Char`; the summarizer
  core works on `List Char` (one entry per character, as in Python).
* The two sklearn calls made by `compute_compatibility` —
  `cosine_similarity` and the TF-IDF `vectorize_topics` wrapper — are the
  external collaborators of the spec ("Text Vectorizer", cosine kernel).
  They are passed in as explicit function parameters.  The cosine
  collaborator returns `Option ℚ`: `none` models a NaN/infinite float
  result, which the source checks for with `np.isnan`/`np.isinf`.
* A Python exception escaping a function is modelled with `Except` /
  `Option`: `ValueError` on missing psychometrics or negative weights
  becomes `MatchError.missingData` / `MatchError.invalidWeight`, and the
  `IndexError` that `normalize_psychometrics` raises on an empty array
  (`psych_array[0]`) makes that function return `none`.
-/

attribute [local semireducible] Rat.add Rat.sub Rat.mul Rat.inv Rat.ofScientific

/-! ## Python character classes (ASCII fragment used by the source) -/

/-- Python `str.strip()` / regex `\s` whitespace (ASCII). -/
def isSpaceChar (c : Char) : Bool :=
  c = ' ' ∨ c = '\t' ∨ c = '\n' ∨ c = '\r' ∨ c = '\x0b' ∨ c = '\x0c'

/-- Regex `\w` word characters (ASCII fragment). -/
def isWordChar (c : Char) : Bool :=
  c.isAlpha ∨ c.isDigit ∨ c = '_'

/-- The sentence-terminal characters of the `[.!?]+` split pattern. -/
def sentencePunct (c : Char) : Bool :=
  c = '.' ∨ c = '!' ∨ c = '?'

/-- Python `str.strip()` on a character list. -/
def trimChars (l : List Char) : List Char :=
  ((l.dropWhile isSpaceChar).reverse.dropWhile isSpaceChar).reverse

/-- Python `str.strip()` on a `String`. -/
def pyStrip (s : String) : String :=
  ⟨trimChars s.data⟩

/-! ## User matching engine (`app/services/user_matching.py`) -/

/-- A user record as consumed by `compute_compatibility`: the `id` key and
the possibly-absent `psychometrics` key of the Python dict. -/
structure UserData where
  id : String
  psychometrics : Option (List ℚ)
deriving DecidableEq

/-- Exceptions that can escape `compute_compatibility`:
`ValueError("Missing psychometric data: ...")`,
`ValueError("Weights must be non-negative")`, and the `IndexError` that
`normalize_psychometrics` would raise on an empty array. -/
inductive MatchError where
  | missingData
  | invalidWeight
  | indexError
deriving DecidableEq

/-- `normalize_psychometrics` (source lines 149-168): min-max normalise a
profile to `[0,1]`, mapping an all-identical profile to a constant `0.5`
vector.  On the empty list the Python code evaluates `psych_array[0]` and
raises `IndexError`, modelled by `none`. -/
def normalize_psychometrics (l : List ℚ) : Option (List ℚ) :=
  match l with
  | [] => none
  | x :: xs =>
    if (x :: xs).all (fun y => y == x) then
      some (List.replicate (x :: xs).length 0.5)
    else
      let mn := xs.foldl min x
      let mx := xs.foldl max x
      if mx = mn then
        some (List.replicate (x :: xs).length 0.5)
      else
        some ((x :: xs).map (fun y => min (max ((y - mn) / (mx - mn)) 0) 1))

/-- Value of `np.interp` at the `k`-th of `m` query points
`np.linspace(0, 1, m)` for data `v` placed on the uniform sample grid
`np.linspace(0, 1, v.length)`; only used with `2 ≤ v.length < m`.  The
query point `k/(m-1)` falls at position `p = k*(v.length-1)/(m-1)` of the
sample grid; interpolation is linear between samples `⌊p⌋` and `⌊p⌋ + 1`
(capped so the right neighbour exists, which at `p = v.length - 1` makes
the value `v.getLast`). -/
def interpQuery (v : List ℚ) (m k : ℕ) : ℚ :=
  let p : ℚ := (k * ((v.length : ℚ) - 1)) / ((m : ℚ) - 1)
  let i := min ⌊p⌋.toNat (v.length - 2)
  let t := p - i
  (1 - t) * v.getD i 0 + t * v.getD (i + 1) 0

/-- `resample_psychometrics` (source lines 123-147): length-match a
profile to `target` samples, by identity, neutral fill, broadcast, or
piecewise-linear interpolation over a uniform grid. -/
def resample_psychometrics (v : List ℚ) (target : ℕ) : List ℚ :=
  if v.length = target then v
  else if v.length = 0 then List.replicate target 0.5
  else if v.length = 1 then List.replicate target v.headI
  else (List.range target).map (interpQuery v target)

/-- `combine_vectors` (source lines 92-102): scale by the weights and
concatenate, topic segment first. -/
def combine_vectors (topic_vec psych_vec : List ℚ) (topic_weight psych_weight : ℚ) : List ℚ :=
  topic_vec.map (fun x => topic_weight * x) ++ psych_vec.map (fun x => psych_weight * x)

/-- `interpret_score` (source lines 104-121): the seven interpretation
bands with inclusive lower bounds. -/
def interpret_score (score : ℚ) : String :=
  if 0.9 ≤ score then "Exceptionally compatible - Perfect match"
  else if 0.8 ≤ score then "Highly compatible - Strong match"
  else if 0.7 ≤ score then "Very compatible - Good match"
  else if 0.6 ≤ score then "Moderately compatible - Decent match"
  else if 0.4 ≤ score then "Somewhat compatible - Weak match"
  else if 0.2 ≤ score then "Low compatibility - Poor match"
  else "Very low compatibility - Minimal match"

/-- The nested conditional block of `compute_compatibility` (source lines
44-69) computing the raw similarity `score`: psychometric-only fallback
when no topics are given, survive filtering, or the topic vector is
all-zero; otherwise cosine over the fused vectors.  `none` models a
NaN/infinite float similarity. -/
def score_path (cos_sim : List ℚ → List ℚ → Option ℚ)
    (vectorize : List String → List ℚ) (topics : List String)
    (u1 u2 : List ℚ) (topic_weight psych_weight : ℚ) : Option ℚ :=
  if topics = [] then cos_sim u1 u2
  else
    let ts := (topics.map pyStrip).filter (fun s => s ≠ "")
    if ts = [] then cos_sim u1 u2
    else
      let tv := vectorize ts
      if tv.all (fun x => x == 0) then cos_sim u1 u2
      else cos_sim (combine_vectors tv u1 topic_weight psych_weight)
                   (combine_vectors tv u2 topic_weight psych_weight)

/-- `compute_compatibility` (source lines 6-81).  `cos_sim` is the sklearn
`cosine_similarity` collaborator (returning `none` for a NaN/inf float),
`vectorize` the TF-IDF `vectorize_topics` collaborator. -/
def compute_compatibility (cos_sim : List ℚ → List ℚ → Option ℚ)
    (vectorize : List String → List ℚ) (user1 user2 : UserData)
    (topics : List String) (topic_weight psych_weight : ℚ) :
    Except MatchError (ℚ × String) :=
  if user1.id = user2.id then .ok (1, "Identical users (perfect match)")
  else
    match user1.psychometrics, user2.psychometrics with
    | some p1, some p2 =>
      if p1 = [] ∨ p2 = [] then .ok (0, "No psychometric data available")
      else
        match normalize_psychometrics p1, normalize_psychometrics p2 with
        | some n1, some n2 =>
          let target := max (max n1.length n2.length) 5
          let u1 := resample_psychometrics n1 target
          let u2 := resample_psychometrics n2 target
          if u1.all (fun x => x == 0) ∨ u2.all (fun x => x == 0) then
            .ok (0, "No psychometric data available")
          else if topic_weight < 0 ∨ psych_weight < 0 then .error .invalidWeight
          else
            match score_path cos_sim vectorize topics u1 u2 topic_weight psych_weight with
            | none => .ok (0, "Unable to compute compatibility score")
            | some s =>
              let c := min (max s 0) 1
              .ok (c, interpret_score c)
        | _, _ => .error .indexError
    | _, _ => .error .missingData

/-! ## Extractive summarizer (`app/services/topic_extraction.py`)

`generate_summary` works on Python strings; the model works on `List Char`
(one entry per character) with a `String` wrapper at the API boundary. -/

/-- `re.split(r'[.!?]+', s)`: split at each maximal run of sentence
punctuation, keeping the (possibly empty) pieces between runs. -/
def splitPunct : List Char → List (List Char)
  | [] => [[]]
  | c :: rest =>
    if sentencePunct c then
      match rest with
      | [] => [[], []]
      | d :: _ => if sentencePunct d then splitPunct rest else [] :: splitPunct rest
    else
      match splitPunct rest with
      | s :: ss => (c :: s) :: ss
      | [] => [[c]]

/-- Case-insensitive literal match of `pat` at the head of `l`; returns the
remainder together with the exact amount consumed. -/
def matchCI (pat : List Char) (l : List Char) :
    Option {r : List Char // r.length + pat.length = l.length} :=
  match pat, l with
  | [], rest => some ⟨rest, by simp⟩
  | _ :: _, [] => none
  | p :: ps, c :: cs =>
    if c.toLower = p.toLower then
      match matchCI ps cs with
      | some ⟨r, hr⟩ => some ⟨r, by simp only [List.length_cons] at hr ⊢; omega⟩
      | none => none
    else none

/-- The filler alternatives of the cleaning regex
`\b(yeah|uh|um|like|you know|so|well)\b`, in alternation order. -/
def fillers : List (List Char) :=
  ["yeah", "uh", "um", "like", "you know", "so", "well"].map String.toList

/-- The trailing `\b` of the filler regex: the character after the match
(which ends in a letter) must not be a word character. -/
def endBoundary (r : List Char) : Bool :=
  match r with
  | [] => true
  | c :: _ => ¬ isWordChar c

/-- Try every filler alternative at the current position, in order,
accepting the first whose trailing word boundary holds. -/
def tryFillers (fs : List (List Char)) (l : List Char) :
    Option {r : List Char // r.length < l.length} :=
  match fs with
  | [] => none
  | f :: fs' =>
    match f with
    | [] => tryFillers fs' l
    | p :: ps =>
      match matchCI (p :: ps) l with
      | some ⟨r, hr⟩ =>
        if endBoundary r then
          some ⟨r, by simp only [List.length_cons] at hr; omega⟩
        else tryFillers fs' l
      | none => tryFillers fs' l

/-- One left-to-right pass of
`re.sub(r'\b(yeah|uh|um|like|you know|so|well)\b', '', s, flags=IGNORECASE)`.
`prevWord` records whether the previous character of the original string
is a word character (the leading `\b`: fillers start with a letter, so a
match can only start after a non-word character or at the start).
The extra `fuel` argument (initialised with the string length, an upper
bound on the number of scanning steps) makes the recursion structural so
that the definition evaluates by reduction; it never runs out. -/
def removeFillersAux : ℕ → Bool → List Char → List Char
  | 0, _, _ => []
  | _ + 1, _, [] => []
  | fuel + 1, prevWord, c :: cs =>
    if prevWord then c :: removeFillersAux fuel (isWordChar c) cs
    else
      match tryFillers fillers (c :: cs) with
      | some ⟨r, _⟩ => removeFillersAux fuel true r
      | none => c :: removeFillersAux fuel (isWordChar c) cs

/-- The filler-removal substitution applied by `generate_summary`. -/
def removeFillers (l : List Char) : List Char :=
  removeFillersAux l.length false l

/-- `re.sub(r'\s+', ' ', s)`: collapse every whitespace run to one space.
`inRun` records whether the previous character was whitespace. -/
def collapseWSAux (inRun : Bool) : List Char → List Char
  | [] => []
  | c :: cs =>
    if isSpaceChar c then
      if inRun then collapseWSAux true cs else ' ' :: collapseWSAux true cs
    else c :: collapseWSAux false cs

/-- Whitespace collapsing as used on each sentence and on the winner. -/
def collapseWS (l : List Char) : List Char :=
  collapseWSAux false l

/-- `len(s.split())`: number of maximal non-whitespace runs. -/
def wordCountAux (inWord : Bool) : List Char → ℕ
  | [] => 0
  | c :: cs =>
    if isSpaceChar c then wordCountAux false cs
    else (if inWord then 0 else 1) + wordCountAux true cs

/-- Python `len(s.split())`. -/
def wordCount (l : List Char) : ℕ :=
  wordCountAux false l

/-- `s.lower()` (character-wise). -/
def lowerL (l : List Char) : List Char :=
  l.map Char.toLower

/-- Python `needle in hay`: contiguous-substring test. -/
def isSubL (needle : List Char) : List Char → Bool
  | [] => needle.isEmpty
  | c :: cs => needle.isPrefixOf (c :: cs) || isSubL needle cs

/-- Topic-relevance criterion (scoring step 1):
`(topic_matches / len(topics)) * 0.4 if topics else 0`. -/
def topic_relevance (topics : List (List Char)) (s : List Char) : ℚ :=
  if topics = [] then 0
  else ((topics.countP (fun t => isSubL (lowerL t) (lowerL s)) : ℚ) / topics.length) * 0.4

/-- Content-density criterion (scoring step 2):
`min(word_count / 50, 1.0) * 0.2`. -/
def content_density (s : List Char) : ℚ :=
  min ((wordCount s : ℚ) / 50) 1 * 0.2

/-- Position criterion (scoring step 3): banded by the index `i` among the
`n` cleaned segments, bands checked in the if/elif order of the source. -/
def position_score (n i : ℕ) : ℚ :=
  if (i : ℚ) < n * 0.1 then 0.15
  else if (i : ℚ) > n * 0.8 then 0.15
  else if n * 0.3 ≤ (i : ℚ) ∧ (i : ℚ) ≤ n * 0.7 then 0.25
  else 0.1

/-- The future-oriented keywords of scoring step 4. -/
def futureWords : List (List Char) :=
  ["plan", "next", "future", "will", "going to"].map String.toList

/-- Question/future bonus (scoring step 4): `question_bonus + future_bonus`
of the source, where the two are mutually exclusive. -/
def question_future_bonus (s : List Char) : ℚ :=
  if '?' ∈ s then 0.1
  else if futureWords.any (fun w => isSubL w (lowerL s)) then 0.1
  else 0

/-- Length penalty (scoring step 5). -/
def length_penalty (s : List Char) : ℚ :=
  if s.length < 30 then 0.1
  else if s.length > 300 then 0.05
  else 0

/-- The dangling connectives of scoring step 6 (`str.endswith` tuple). -/
def danglingEnds : List (List Char) :=
  ["and", "but", "so", "because", "the"].map String.toList

/-- Incompleteness penalty (scoring step 6). -/
def incomplete_penalty (s : List Char) : ℚ :=
  if danglingEnds.any (fun w => w.isSuffixOf s) then 0.1 else 0

/-- Combined sentence score (source line 111). -/
def sentence_score (topics : List (List Char)) (n i : ℕ) (s : List Char) : ℚ :=
  topic_relevance topics s + content_density s + position_score n i +
    question_future_bonus s - length_penalty s - incomplete_penalty s

/-- Selection of `scored_sentences.sort(reverse=True)` followed by taking
the head: the stable descending sort puts the earliest of the
highest-scoring candidates first, i.e. a left fold keeping the current
best and replacing it only on a strictly larger score. -/
def bestOf (l : List (ℚ × List Char)) : Option (ℚ × List Char) :=
  l.foldl (fun acc x =>
    match acc with
    | none => some x
    | some b => if x.1 > b.1 then some x else some b) none

/-- Step 1 of `generate_summary`: split on `[.!?]+`, strip, and keep the
segments that are non-empty and longer than 10 characters. -/
def segmentsOf (t : List Char) : List (List Char) :=
  ((splitPunct t).map trimChars).filter (fun s => decide (s ≠ [] ∧ 10 < s.length))

/-- Step 3 of `generate_summary`: the per-segment cleaning. -/
def cleanSentence (s : List Char) : List Char :=
  trimChars (collapseWS (removeFillers s))

/-- Steps 3-4 of `generate_summary`: clean each segment and keep the ones
longer than 15 characters. -/
def cleanedOf (t : List Char) : List (List Char) :=
  ((segmentsOf t).map cleanSentence).filter (fun s => decide (15 < s.length))

/-- Python `s.endswith(('.', '!', '?'))`. -/
def endsPunct (s : List Char) : Bool :=
  match s.getLast? with
  | some c => sentencePunct c
  | none => false

/-- `generate_summary` (source lines 12-132) on character lists. -/
def generateSummaryL (t : List Char) (topics : List (List Char)) : List Char :=
  if (segmentsOf t).length ≤ 2 then t
  else if (cleanedOf t).length ≤ 2 then t
  else
    let cleaned := cleanedOf t
    let scored := cleaned.enum.map (fun p => (sentence_score topics cleaned.length p.1 p.2, p.2))
    match bestOf scored with
    | some b =>
      let s := trimChars (collapseWS b.2)
      if endsPunct s then s else s ++ ['.']
    | none => t

/-- `generate_summary` at the Python string interface. -/
def generate_summary (t : String) (topics : List String) : String :=
  ⟨generateSummaryL t.data (topics.map String.data)⟩

/-- Modelled from the spec: the cosine-similarity formula of spec section
4.3, `dot(u, v) / (||u|| * ||v||)`, describing the external sklearn
`cosine_similarity` collaborator over the reals.  It is not code of the
repository; it is included to justify the symmetry hypothesis placed on
the `cos_sim` collaborator parameter in the symmetry claim. -/
noncomputable def cosine_similarity (u v : List ℝ) : ℝ :=
  (List.zipWith (fun a b => a * b) u v).sum /
    (Real.sqrt (List.zipWith (fun a b => a * b) u u).sum *
      Real.sqrt (List.zipWith (fun a b => a * b) v v).sum)

/-! ## Helper lemmas: list folds of `min` / `max` (`np.min` / `np.max`) -/

lemma foldl_min_mem (xs : List ℚ) : ∀ x : ℚ, xs.foldl min x ∈ x :: xs := by
  induction xs with
  | nil => intro x; simp
  | cons y ys ih =>
    intro x
    rw [List.foldl_cons]
    rcases List.mem_cons.mp (ih (min x y)) with h | h
    · rw [h]
      rcases min_choice x y with h2 | h2 <;> rw [h2]
      · exact List.mem_cons_self _ _
      · exact List.mem_cons_of_mem _ (List.mem_cons_self _ _)
    · exact List.mem_cons_of_mem _ (List.mem_cons_of_mem _ h)

lemma foldl_min_le (xs : List ℚ) : ∀ x : ℚ, ∀ y ∈ x :: xs, xs.foldl min x ≤ y := by
  induction xs with
  | nil => intro x y hy; simp at hy; simp [hy]
  | cons z zs ih =>
    intro x y hy
    rw [List.foldl_cons]
    rcases List.mem_cons.mp hy with rfl | hy
    · exact le_trans (ih (min y z) _ (List.mem_cons_self _ _)) (min_le_left _ _)
    · rcases List.mem_cons.mp hy with rfl | hy
      · exact le_trans (ih (min x y) _ (List.mem_cons_self _ _)) (min_le_right _ _)
      · exact ih (min x z) y (List.mem_cons_of_mem _ hy)

lemma foldl_max_mem (xs : List ℚ) : ∀ x : ℚ, xs.foldl max x ∈ x :: xs := by
  induction xs with
  | nil => intro x; simp
  | cons y ys ih =>
    intro x
    rw [List.foldl_cons]
    rcases List.mem_cons.mp (ih (max x y)) with h | h
    · rw [h]
      rcases max_choice x y with h2 | h2 <;> rw [h2]
      · exact List.mem_cons_self _ _
      · exact List.mem_cons_of_mem _ (List.mem_cons_self _ _)
    · exact List.mem_cons_of_mem _ (List.mem_cons_of_mem _ h)

lemma le_foldl_max (xs : List ℚ) : ∀ x : ℚ, ∀ y ∈ x :: xs, y ≤ xs.foldl max x := by
  induction xs with
  | nil => intro x y hy; simp at hy; simp [hy]
  | cons z zs ih =>
    intro x y hy
    rw [List.foldl_cons]
    rcases List.mem_cons.mp hy with rfl | hy
    · exact le_trans (le_max_left _ _) (ih (max y z) _ (List.mem_cons_self _ _))
    · rcases List.mem_cons.mp hy with rfl | hy
      · exact le_trans (le_max_right _ _) (ih (max x y) _ (List.mem_cons_self _ _))
      · exact ih (max x z) y (List.mem_cons_of_mem _ hy)

/-! ## Helper lemmas: `normalize_psychometrics` -/

/-- Characterization of `normalize_psychometrics` on a non-empty list: the
all-identical branch fires exactly when all values equal the head, and the
redundant `max_val == min_val` branch of the source is dead. -/
lemma normalize_cons (x : ℚ) (xs : List ℚ) :
    normalize_psychometrics (x :: xs) =
      if ∀ y ∈ x :: xs, y = x then
        some (List.replicate (xs.length + 1) (1/2))
      else
        some ((x :: xs).map (fun y =>
          min (max ((y - xs.foldl min x) / (xs.foldl max x - xs.foldl min x)) 0) 1)) := by
  have hbody : normalize_psychometrics (x :: xs) =
      (if (x :: xs).all (fun y => y == x) then
        some (List.replicate (x :: xs).length 0.5)
      else
        if xs.foldl max x = xs.foldl min x then
          some (List.replicate (x :: xs).length 0.5)
        else
          some ((x :: xs).map (fun y =>
            min (max ((y - xs.foldl min x) / (xs.foldl max x - xs.foldl min x)) 0) 1))) := rfl
  rw [hbody]
  have hall : ((x :: xs).all (fun y => y == x)) = true ↔ ∀ y ∈ x :: xs, y = x := by
    simp [List.all_eq_true]
  by_cases h : ∀ y ∈ x :: xs, y = x
  · rw [if_pos (hall.mpr h), if_pos h]
    norm_num
  · rw [if_neg (fun hb => h (hall.mp hb)), if_neg h]
    have hmm : xs.foldl max x ≠ xs.foldl min x := by
      intro heq
      apply h
      intro y hy
      have h1 := foldl_min_le xs x y hy
      have h2 := le_foldl_max xs x y hy
      have hx1 := foldl_min_le xs x x (List.mem_cons_self _ _)
      have hx2 := le_foldl_max xs x x (List.mem_cons_self _ _)
      rw [heq] at h2 hx2
      exact le_antisymm (le_trans h2 hx1) (le_trans hx2 h1)
    rw [if_neg hmm]

lemma normalize_isSome (x : ℚ) (xs : List ℚ) :
    ∃ w, normalize_psychometrics (x :: xs) = some w := by
  rw [normalize_cons]
  split <;> exact ⟨_, rfl⟩

lemma normalize_length {x : ℚ} {xs w : List ℚ}
    (h : normalize_psychometrics (x :: xs) = some w) :
    w.length = xs.length + 1 := by
  rw [normalize_cons] at h
  split at h <;> cases h <;> simp

lemma normalize_nonneg {x : ℚ} {xs w : List ℚ}
    (h : normalize_psychometrics (x :: xs) = some w) :
    ∀ y ∈ w, 0 ≤ y := by
  rw [normalize_cons] at h
  split at h <;> cases h <;> intro y hy
  · rw [List.eq_of_mem_replicate hy]; norm_num
  · obtain ⟨z, _, rfl⟩ := List.mem_map.mp hy
    exact le_min (le_max_right _ _) (by norm_num)

lemma normalize_exists_pos {x : ℚ} {xs w : List ℚ}
    (h : normalize_psychometrics (x :: xs) = some w) :
    ∃ y ∈ w, 0 < y := by
  rw [normalize_cons] at h
  split at h <;> cases h
  · exact ⟨1/2, List.mem_replicate.mpr ⟨by simp, rfl⟩, by norm_num⟩
  · rename_i hne
    have hmm : xs.foldl max x ≠ xs.foldl min x := by
      intro heq
      apply hne
      intro y hy
      have h1 := foldl_min_le xs x y hy
      have h2 := le_foldl_max xs x y hy
      have hx1 := foldl_min_le xs x x (List.mem_cons_self _ _)
      have hx2 := le_foldl_max xs x x (List.mem_cons_self _ _)
      rw [heq] at h2 hx2
      exact le_antisymm (le_trans h2 hx1) (le_trans hx2 h1)
    refine ⟨1, ?_, one_pos⟩
    refine List.mem_map.mpr ⟨xs.foldl max x, foldl_max_mem xs x, ?_⟩
    rw [div_self (sub_ne_zero.mpr hmm)]
    norm_num

/-! ## Helper lemmas: `resample_psychometrics` and `interpQuery` -/

lemma interpQuery_zero {v : List ℚ} (m : ℕ) :
    interpQuery v m 0 = v.getD 0 0 := by
  simp [interpQuery]

lemma interpQuery_last {v : List ℚ} {m : ℕ} (h2 : 2 ≤ v.length) (hm : v.length < m) :
    interpQuery v m (m - 1) = v.getD (v.length - 1) 0 := by
  have hm0 : ((m : ℚ) - 1) ≠ 0 := by
    have : (3 : ℚ) ≤ m := by exact_mod_cast (by omega : 3 ≤ m)
    linarith
  simp only [interpQuery]
  rw [Nat.cast_sub (by omega : 1 ≤ m), Nat.cast_one,
    mul_div_cancel_left₀ _ hm0]
  have hfl : ⌊(v.length : ℚ) - 1⌋ = (v.length : ℤ) - 1 := by
    have h : ((v.length : ℚ) - 1) = (((v.length : ℤ) - 1 : ℤ) : ℚ) := by push_cast; ring
    rw [h, Int.floor_intCast]
  rw [hfl]
  have htn : ((v.length : ℤ) - 1).toNat = v.length - 1 := by omega
  rw [htn]
  have hmin : min (v.length - 1) (v.length - 2) = v.length - 2 := by omega
  rw [hmin]
  have hc2 : ((v.length - 2 : ℕ) : ℚ) = (v.length : ℚ) - 2 := by
    rw [Nat.cast_sub h2]; norm_num
  rw [hc2]
  have hidx : v.length - 2 + 1 = v.length - 1 := by omega
  rw [hidx]
  ring_nf

lemma interpQuery_mid_pos {v : List ℚ} {m j : ℕ} (hm : v.length < m)
    (hj0 : 0 < j) (hjn : j + 1 < v.length) (hnn : ∀ y ∈ v, 0 ≤ y)
    (hjpos : 0 < v.getD j 0) :
    ∃ k < m, 0 < interpQuery v m k := by
  have hn2 : 2 ≤ v.length := by omega
  have hnpos : (0 : ℚ) < (v.length : ℚ) - 1 := by
    have : (2 : ℚ) ≤ v.length := by exact_mod_cast hn2
    linarith
  have hmpos : (0 : ℚ) < (m : ℚ) - 1 := by
    have : (v.length : ℚ) < m := by exact_mod_cast hm
    linarith
  have hnm : (v.length : ℚ) - 1 < (m : ℚ) - 1 := by
    have : (v.length : ℚ) < m := by exact_mod_cast hm
    linarith
  set x : ℚ := (j * ((m : ℚ) - 1)) / ((v.length : ℚ) - 1) with hx
  have hx0 : 0 ≤ x :=
    div_nonneg (mul_nonneg (Nat.cast_nonneg j) (le_of_lt hmpos)) (le_of_lt hnpos)
  set k : ℕ := ⌈x⌉.toNat with hk
  have hkc : (k : ℚ) = ((⌈x⌉ : ℤ) : ℚ) := by
    rw [hk]
    exact_mod_cast congrArg Int.cast (Int.toNat_of_nonneg (Int.ceil_nonneg hx0))
  have hxk : x ≤ (k : ℚ) := by rw [hkc]; exact Int.le_ceil x
  have hkx : (k : ℚ) < x + 1 := by rw [hkc]; exact Int.ceil_lt_add_one x
  have hxmul : x * ((v.length : ℚ) - 1) = (j : ℚ) * ((m : ℚ) - 1) :=
    div_mul_cancel₀ _ (ne_of_gt hnpos)
  have h1 : (j : ℚ) * ((m : ℚ) - 1) ≤ (k : ℚ) * ((v.length : ℚ) - 1) := by
    calc (j : ℚ) * ((m : ℚ) - 1) = x * ((v.length : ℚ) - 1) := hxmul.symm
    _ ≤ (k : ℚ) * ((v.length : ℚ) - 1) :=
        mul_le_mul_of_nonneg_right hxk (le_of_lt hnpos)
  have h2 : (k : ℚ) * ((v.length : ℚ) - 1) < ((j : ℚ) + 1) * ((m : ℚ) - 1) := by
    calc (k : ℚ) * ((v.length : ℚ) - 1) < (x + 1) * ((v.length : ℚ) - 1) :=
        mul_lt_mul_of_pos_right hkx hnpos
    _ = (j : ℚ) * ((m : ℚ) - 1) + ((v.length : ℚ) - 1) := by rw [add_mul, one_mul, hxmul]
    _ < (j : ℚ) * ((m : ℚ) - 1) + ((m : ℚ) - 1) := by linarith
    _ = ((j : ℚ) + 1) * ((m : ℚ) - 1) := by ring
  set p : ℚ := ((k : ℚ) * ((v.length : ℚ) - 1)) / ((m : ℚ) - 1) with hp
  have hpj : (j : ℚ) ≤ p := (le_div_iff₀ hmpos).mpr (by linarith)
  have hpj1 : p < (j : ℚ) + 1 := (div_lt_iff₀ hmpos).mpr (by linarith)
  have hfl : ⌊p⌋ = (j : ℤ) := by
    rw [Int.floor_eq_iff]
    constructor
    · exact_mod_cast hpj
    · exact_mod_cast hpj1
  have hflt : ⌊p⌋.toNat = j := by rw [hfl]; simp
  have hmin : min j (v.length - 2) = j := min_eq_left (by omega)
  have hkm : k < m := by
    have hjlt : (j : ℚ) < (v.length : ℚ) - 1 := by
      have : ((j + 2 : ℕ) : ℚ) ≤ (v.length : ℚ) := by exact_mod_cast (by omega : j + 2 ≤ v.length)
      push_cast at this
      linarith
    have hxlt : x < (m : ℚ) - 1 := by
      rw [hx, div_lt_iff₀ hnpos]
      calc (j : ℚ) * ((m : ℚ) - 1) < ((v.length : ℚ) - 1) * ((m : ℚ) - 1) :=
          mul_lt_mul_of_pos_right hjlt hmpos
      _ = ((m : ℚ) - 1) * ((v.length : ℚ) - 1) := by ring
    have : (k : ℚ) < (m : ℚ) := by linarith
    exact_mod_cast this
  refine ⟨k, hkm, ?_⟩
  simp only [interpQuery]
  rw [← hp, hflt, hmin]
  have ht0 : 0 ≤ p - (j : ℚ) := by linarith
  have ht1 : p - (j : ℚ) < 1 := by linarith
  have hgd : 0 ≤ v.getD (j + 1) 0 := by
    rw [List.getD_eq_getElem _ _ hjn]
    exact hnn _ (List.getElem_mem hjn)
  have hpos1 : 0 < (1 - (p - (j : ℚ))) * v.getD j 0 :=
    mul_pos (by linarith) hjpos
  have hpos2 : 0 ≤ (p - (j : ℚ)) * v.getD (j + 1) 0 := mul_nonneg ht0 hgd
  linarith

lemma resample_exists_pos {v : List ℚ} {m : ℕ} (hne : v ≠ []) (hlen : v.length ≤ m)
    (hnn : ∀ y ∈ v, 0 ≤ y) (hpos : ∃ y ∈ v, 0 < y) :
    ∃ y ∈ resample_psychometrics v m, 0 < y := by
  unfold resample_psychometrics
  by_cases h1 : v.length = m
  · rw [if_pos h1]; exact hpos
  rw [if_neg h1]
  have h0 : ¬ v.length = 0 := fun h => hne (List.length_eq_zero.mp h)
  rw [if_neg h0]
  by_cases hl1 : v.length = 1
  · rw [if_pos hl1]
    obtain ⟨a, rfl⟩ := List.length_eq_one.mp hl1
    obtain ⟨y, hy, hypos⟩ := hpos
    have hya : y = a := by simpa using hy
    subst hya
    exact ⟨y, List.mem_replicate.mpr ⟨by omega, rfl⟩, hypos⟩
  · rw [if_neg hl1]
    have hn2 : 2 ≤ v.length := by omega
    have hm : v.length < m := lt_of_le_of_ne hlen h1
    obtain ⟨y, hy, hypos⟩ := hpos
    obtain ⟨j, hj, rfl⟩ := List.mem_iff_getElem.mp hy
    have hgd : 0 < v.getD j 0 := by
      rwa [List.getD_eq_getElem _ _ hj]
    by_cases hj0 : j = 0
    · subst hj0
      refine ⟨interpQuery v m 0,
        List.mem_map_of_mem _ (List.mem_range.mpr (by omega)), ?_⟩
      rw [interpQuery_zero m]
      exact hgd
    by_cases hjl : j + 1 = v.length
    · refine ⟨interpQuery v m (m - 1),
        List.mem_map_of_mem _ (List.mem_range.mpr (by omega)), ?_⟩
      rw [interpQuery_last hn2 hm]
      rw [show v.length - 1 = j by omega]
      exact hgd
    · obtain ⟨k, hkm, hkpos⟩ :=
        interpQuery_mid_pos hm (by omega) (by omega) hnn hgd
      exact ⟨interpQuery v m k,
        List.mem_map_of_mem _ (List.mem_range.mpr hkm), hkpos⟩

/-! ## Helper lemmas: the main path of `compute_compatibility` -/

lemma normalize_length' {p w : List ℚ} (hw : normalize_psychometrics p = some w) :
    w.length = p.length := by
  cases p with
  | nil => simp [normalize_psychometrics] at hw
  | cons x xs => rw [normalize_length hw]; simp

lemma normalize_nonneg' {p w : List ℚ} (hw : normalize_psychometrics p = some w) :
    ∀ y ∈ w, 0 ≤ y := by
  cases p with
  | nil => simp [normalize_psychometrics] at hw
  | cons x xs => exact normalize_nonneg hw

lemma normalize_exists_pos' {p w : List ℚ} (hw : normalize_psychometrics p = some w) :
    ∃ y ∈ w, 0 < y := by
  cases p with
  | nil => simp [normalize_psychometrics] at hw
  | cons x xs => exact normalize_exists_pos hw

/-- The all-zero guard of `compute_compatibility` (source line 37) can
never fire on the resampling of a normalized non-empty profile, provided
the resampling target is at least the profile length. -/
lemma resample_normalize_not_all_zero {p w : List ℚ} {m : ℕ}
    (hw : normalize_psychometrics p = some w) (hm : p.length ≤ m) :
    ¬ ((resample_psychometrics w m).all (fun x => x == 0) = true) := by
  have hlen := normalize_length' hw
  have hwne : w ≠ [] := by
    intro h
    rw [h] at hlen
    cases p with
    | nil => simp [normalize_psychometrics] at hw
    | cons x xs => simp at hlen
  obtain ⟨y, hy, hypos⟩ :=
    resample_exists_pos hwne (hlen ▸ hm) (normalize_nonneg' hw) (normalize_exists_pos' hw)
  intro hall
  rw [List.all_eq_true] at hall
  have := hall y hy
  rw [beq_iff_eq] at this
  exact ne_of_gt hypos this

lemma interpret_score_ne_nodata (c : ℚ) :
    interpret_score c ≠ "No psychometric data available" := by
  unfold interpret_score
  split_ifs <;> decide

lemma clamp_nonneg (s : ℚ) : 0 ≤ min (max s 0) 1 :=
  le_min (le_max_right _ _) zero_le_one

lemma clamp_le_one (s : ℚ) : min (max s 0) 1 ≤ 1 :=
  min_le_right _ _

/-- Reduction of `compute_compatibility` on the fully valid main path:
distinct users, both profiles present and non-empty. -/
lemma compute_eq_of_valid {cos_sim : List ℚ → List ℚ → Option ℚ}
    {vectorize : List String → List ℚ} {u1 u2 : UserData}
    {topics : List String} {tw pw : ℚ} {p1 p2 n1 n2 : List ℚ}
    (hid : u1.id ≠ u2.id)
    (h1 : u1.psychometrics = some p1) (h2 : u2.psychometrics = some p2)
    (hne1 : p1 ≠ []) (hne2 : p2 ≠ [])
    (hn1 : normalize_psychometrics p1 = some n1)
    (hn2 : normalize_psychometrics p2 = some n2) :
    compute_compatibility cos_sim vectorize u1 u2 topics tw pw =
      (if tw < 0 ∨ pw < 0 then .error .invalidWeight
       else
         match score_path cos_sim vectorize topics
             (resample_psychometrics n1 (max (max n1.length n2.length) 5))
             (resample_psychometrics n2 (max (max n1.length n2.length) 5)) tw pw with
         | none => .ok (0, "Unable to compute compatibility score")
         | some s => .ok (min (max s 0) 1, interpret_score (min (max s 0) 1))) := by
  obtain ⟨id1, psy1⟩ := u1
  obtain ⟨id2, psy2⟩ := u2
  simp only at h1 h2 hid
  subst h1
  subst h2
  have hz1 : ¬ ((resample_psychometrics n1 (max (max n1.length n2.length) 5)).all
      (fun x => x == 0) = true) :=
    resample_normalize_not_all_zero hn1
      (le_trans (le_of_eq (normalize_length' hn1).symm)
        (le_trans (le_max_left _ _) (le_max_left _ _)))
  have hz2 : ¬ ((resample_psychometrics n2 (max (max n1.length n2.length) 5)).all
      (fun x => x == 0) = true) :=
    resample_normalize_not_all_zero hn2
      (le_trans (le_of_eq (normalize_length' hn2).symm)
        (le_trans (le_max_right _ _) (le_max_left _ _)))
  unfold compute_compatibility
  rw [if_neg hid]
  show (if p1 = [] ∨ p2 = [] then _ else _) = _
  rw [if_neg (by rintro (h | h) <;> [exact hne1 h; exact hne2 h]), hn1, hn2]
  show (if _ ∨ _ then _ else _) = _
  rw [if_neg (by rintro (h | h) <;> [exact hz1 h; exact hz2 h])]

/-- Reduction of `compute_compatibility` when an (either) present profile
is empty: the guard at source line 24 returns before any processing. -/
lemma compute_eq_of_empty {cos_sim : List ℚ → List ℚ → Option ℚ}
    {vectorize : List String → List ℚ} {u1 u2 : UserData}
    {topics : List String} {tw pw : ℚ} {p1 p2 : List ℚ}
    (hid : u1.id ≠ u2.id)
    (h1 : u1.psychometrics = some p1) (h2 : u2.psychometrics = some p2)
    (hemp : p1 = [] ∨ p2 = []) :
    compute_compatibility cos_sim vectorize u1 u2 topics tw pw =
      .ok (0, "No psychometric data available") := by
  obtain ⟨id1, psy1⟩ := u1
  obtain ⟨id2, psy2⟩ := u2
  simp only at h1 h2 hid
  subst h1
  subst h2
  unfold compute_compatibility
  rw [if_neg hid]
  show (if p1 = [] ∨ p2 = [] then _ else _) = _
  rw [if_pos hemp]

/-- The spec's cosine-similarity formula is symmetric, so the symmetry
hypothesis placed on the `cos_sim` collaborator holds for the real
collaborator. -/
lemma cosine_similarity_comm (u v : List ℝ) :
    cosine_similarity u v = cosine_similarity v u := by
  unfold cosine_similarity
  rw [List.zipWith_comm_of_comm _ mul_comm u v,
    mul_comm (Real.sqrt _) (Real.sqrt _)]

/-- `score_path` is symmetric in the two psychometric vectors whenever the
cosine collaborator is symmetric: every branch compares the two users
against the same shared topic vector. -/
lemma score_path_swap {cos_sim : List ℚ → List ℚ → Option ℚ}
    (hsym : ∀ a b, cos_sim a b = cos_sim b a)
    (vectorize : List String → List ℚ) (topics : List String)
    (a b : List ℚ) (tw pw : ℚ) :
    score_path cos_sim vectorize topics a b tw pw =
      score_path cos_sim vectorize topics b a tw pw := by
  unfold score_path
  dsimp only
  split_ifs <;> apply hsym

/-- Full output symmetry of `compute_compatibility` under a symmetric
cosine collaborator. -/
lemma compute_swap {cos_sim : List ℚ → List ℚ → Option ℚ}
    (hsym : ∀ a b, cos_sim a b = cos_sim b a)
    (vectorize : List String → List ℚ) (u1 u2 : UserData)
    (topics : List String) (tw pw : ℚ) :
    compute_compatibility cos_sim vectorize u1 u2 topics tw pw =
      compute_compatibility cos_sim vectorize u2 u1 topics tw pw := by
  obtain ⟨id1, psy1⟩ := u1
  obtain ⟨id2, psy2⟩ := u2
  unfold compute_compatibility
  dsimp only
  by_cases hid : id1 = id2
  · rw [if_pos hid, if_pos hid.symm]
  · rw [if_neg hid, if_neg (fun h => hid h.symm)]
    cases psy1 with
    | none => cases psy2 <;> rfl
    | some p1 =>
      cases psy2 with
      | none => rfl
      | some p2 =>
        show (if p1 = [] ∨ p2 = [] then _ else _) = (if p2 = [] ∨ p1 = [] then _ else _)
        refine if_congr or_comm rfl ?_
        cases hn1 : normalize_psychometrics p1 with
        | none => cases hn2 : normalize_psychometrics p2 <;> rfl
        | some n1 =>
          cases hn2 : normalize_psychometrics p2 with
          | none => rfl
          | some n2 =>
            show (if _ ∨ _ then _ else _) = (if _ ∨ _ then _ else _)
            rw [max_comm n2.length n1.length]
            refine if_congr or_comm rfl (if_congr Iff.rfl rfl ?_)
            rw [score_path_swap hsym]

/-! ## Helper lemmas: summarizer text processing -/

lemma trimChars_length_le (l : List Char) : (trimChars l).length ≤ l.length := by
  unfold trimChars
  calc ((l.dropWhile isSpaceChar).reverse.dropWhile isSpaceChar).reverse.length
      = ((l.dropWhile isSpaceChar).reverse.dropWhile isSpaceChar).length := by
        rw [List.length_reverse]
  _ ≤ (l.dropWhile isSpaceChar).reverse.length := (List.dropWhile_sublist _).length_le
  _ = (l.dropWhile isSpaceChar).length := by rw [List.length_reverse]
  _ ≤ l.length := (List.dropWhile_sublist _).length_le

lemma mem_trimChars {c : Char} {l : List Char} (h : c ∈ trimChars l) : c ∈ l := by
  unfold trimChars at h
  rw [List.mem_reverse] at h
  have h2 := (List.dropWhile_sublist _).mem h
  rw [List.mem_reverse] at h2
  exact (List.dropWhile_sublist _).mem h2

lemma collapseWSAux_length_le (b : Bool) (l : List Char) :
    (collapseWSAux b l).length ≤ l.length := by
  induction l generalizing b with
  | nil => simp [collapseWSAux]
  | cons c cs ih =>
    unfold collapseWSAux
    split_ifs <;> simp only [List.length_cons] <;>
      [exact le_trans (ih true) (Nat.le_succ _); exact Nat.succ_le_succ (ih true);
        exact Nat.succ_le_succ (ih false)]

lemma mem_collapseWSAux {c : Char} {b : Bool} {l : List Char}
    (h : c ∈ collapseWSAux b l) : c ∈ l ∨ c = ' ' := by
  induction l generalizing b with
  | nil => simp [collapseWSAux] at h
  | cons d ds ih =>
    unfold collapseWSAux at h
    split_ifs at h
    · rcases ih h with h2 | h2
      · exact Or.inl (List.mem_cons_of_mem _ h2)
      · exact Or.inr h2
    · rcases List.mem_cons.mp h with rfl | h2
      · exact Or.inr rfl
      · rcases ih h2 with h3 | h3
        · exact Or.inl (List.mem_cons_of_mem _ h3)
        · exact Or.inr h3
    · rcases List.mem_cons.mp h with rfl | h2
      · exact Or.inl (List.mem_cons_self _ _)
      · rcases ih h2 with h3 | h3
        · exact Or.inl (List.mem_cons_of_mem _ h3)
        · exact Or.inr h3

lemma matchCI_suffix {pat l : List Char} {r : {r : List Char // r.length + pat.length = l.length}}
    (h : matchCI pat l = some r) : (r : List Char) <:+ l := by
  induction pat generalizing l with
  | nil =>
    unfold matchCI at h
    cases h
    exact List.suffix_refl _
  | cons p ps ih =>
    unfold matchCI at h
    cases l with
    | nil => cases h
    | cons c cs =>
      dsimp only at h
      split_ifs at h
      cases hm : matchCI ps cs with
      | none => rw [hm] at h; cases h
      | some r2 =>
        rw [hm] at h
        dsimp only at h
        cases h
        exact (ih hm).trans (List.suffix_cons c cs)

lemma tryFillers_suffix {fs : List (List Char)} {l : List Char}
    {r : {r : List Char // r.length < l.length}}
    (h : tryFillers fs l = some r) : (r : List Char) <:+ l := by
  induction fs with
  | nil => cases h
  | cons f fs' ih =>
    unfold tryFillers at h
    cases f with
    | nil => exact ih h
    | cons p ps =>
      dsimp only at h
      cases hm : matchCI (p :: ps) l with
      | none => rw [hm] at h; exact ih h
      | some r2 =>
        rw [hm] at h
        dsimp only at h
        split_ifs at h
        · cases h
          exact matchCI_suffix hm
        · exact ih h

lemma removeFillersAux_length_le (fuel : ℕ) (b : Bool) (l : List Char) :
    (removeFillersAux fuel b l).length ≤ l.length := by
  induction fuel generalizing b l with
  | zero => simp [removeFillersAux]
  | succ fuel ih =>
    cases l with
    | nil => simp [removeFillersAux]
    | cons c cs =>
      unfold removeFillersAux
      split_ifs
      · simpa using Nat.succ_le_succ (ih (isWordChar c) cs)
      · cases htf : tryFillers fillers (c :: cs) with
        | none => simpa using Nat.succ_le_succ (ih (isWordChar c) cs)
        | some r =>
          calc (removeFillersAux fuel true (r : List Char)).length
              ≤ (r : List Char).length := ih true _
          _ ≤ (c :: cs).length := le_of_lt r.2

lemma mem_removeFillersAux {c : Char} (fuel : ℕ) (b : Bool) (l : List Char)
    (h : c ∈ removeFillersAux fuel b l) : c ∈ l := by
  induction fuel generalizing b l with
  | zero => simp [removeFillersAux] at h
  | succ fuel ih =>
    cases l with
    | nil => simp [removeFillersAux] at h
    | cons d ds =>
      unfold removeFillersAux at h
      split_ifs at h
      · rcases List.mem_cons.mp h with rfl | h2
        · exact List.mem_cons_self _ _
        · exact List.mem_cons_of_mem _ (ih _ _ h2)
      · cases htf : tryFillers fillers (d :: ds) with
        | none =>
          rw [htf] at h
          rcases List.mem_cons.mp h with rfl | h2
          · exact List.mem_cons_self _ _
          · exact List.mem_cons_of_mem _ (ih _ _ h2)
        | some r =>
          rw [htf] at h
          exact (tryFillers_suffix htf).subset (ih _ _ h)

lemma cleanSentence_length_le (s : List Char) :
    (cleanSentence s).length ≤ s.length := by
  unfold cleanSentence collapseWS removeFillers
  calc (trimChars (collapseWSAux false (removeFillersAux s.length false s))).length
      ≤ (collapseWSAux false (removeFillersAux s.length false s)).length :=
        trimChars_length_le _
  _ ≤ (removeFillersAux s.length false s).length := collapseWSAux_length_le _ _
  _ ≤ s.length := removeFillersAux_length_le _ _ _

lemma mem_cleanSentence {c : Char} {s : List Char} (h : c ∈ cleanSentence s) :
    c ∈ s ∨ c = ' ' := by
  unfold cleanSentence collapseWS removeFillers at h
  rcases mem_collapseWSAux (mem_trimChars h) with h2 | h2
  · exact Or.inl (mem_removeFillersAux _ _ _ h2)
  · exact Or.inr h2

lemma splitPunct_cons_punct_cons {c d : Char} {ds : List Char}
    (hc : sentencePunct c) (hd : sentencePunct d) :
    splitPunct (c :: d :: ds) = splitPunct (d :: ds) := by
  unfold splitPunct
  rw [if_pos hc]
  dsimp only
  rw [if_pos hd]
  rfl

lemma splitPunct_cons_punct_nopunct {c d : Char} {ds : List Char}
    (hc : sentencePunct c) (hd : ¬ sentencePunct d) :
    splitPunct (c :: d :: ds) = [] :: splitPunct (d :: ds) := by
  unfold splitPunct
  rw [if_pos hc]
  dsimp only
  rw [if_neg hd]
  rfl

lemma splitPunct_cons_nopunct {c : Char} {rest s : List Char} {ss : List (List Char)}
    (hc : ¬ sentencePunct c) (hsp : splitPunct rest = s :: ss) :
    splitPunct (c :: rest) = (c :: s) :: ss := by
  unfold splitPunct
  rw [if_neg hc, hsp]

lemma splitPunct_ne_nil (l : List Char) : splitPunct l ≠ [] := by
  induction l with
  | nil => simp [splitPunct]
  | cons c rest ih =>
    by_cases hc : sentencePunct c
    · cases rest with
      | nil => simp [splitPunct, hc]
      | cons d ds =>
        by_cases hd : sentencePunct d
        · rw [splitPunct_cons_punct_cons hc hd]
          exact ih
        · rw [splitPunct_cons_punct_nopunct hc hd]
          simp
    · unfold splitPunct
      rw [if_neg hc]
      cases hsp : splitPunct rest with
      | nil => simp
      | cons s ss => simp

lemma splitPunct_sum_le (l : List Char) :
    ((splitPunct l).map List.length).sum ≤ l.length := by
  induction l with
  | nil => simp [splitPunct]
  | cons c rest ih =>
    by_cases hc : sentencePunct c
    · cases rest with
      | nil => simp [splitPunct, hc]
      | cons d ds =>
        by_cases hd : sentencePunct d
        · rw [splitPunct_cons_punct_cons hc hd]
          simp only [List.length_cons] at ih ⊢
          omega
        · rw [splitPunct_cons_punct_nopunct hc hd]
          simp only [List.map_cons, List.length_nil, List.sum_cons,
            List.length_cons] at ih ⊢
          omega
    · cases hsp : splitPunct rest with
      | nil => exact absurd hsp (splitPunct_ne_nil rest)
      | cons s ss =>
        rw [splitPunct_cons_nopunct hc hsp]
        rw [hsp] at ih
        simp only [List.map_cons, List.sum_cons, List.length_cons] at ih ⊢
        omega

lemma splitPunct_no_punct (l : List Char) :
    ∀ s ∈ splitPunct l, ∀ c ∈ s, sentencePunct c = false := by
  induction l with
  | nil =>
    intro s hs c hc
    simp [splitPunct] at hs
    subst hs
    simp at hc
  | cons a rest ih =>
    intro s hs c hc
    by_cases ha : sentencePunct a
    · cases rest with
      | nil =>
        simp [splitPunct, ha] at hs
        subst hs
        simp at hc
      | cons d ds =>
        by_cases hd : sentencePunct d
        · rw [splitPunct_cons_punct_cons ha hd] at hs
          exact ih s hs c hc
        · rw [splitPunct_cons_punct_nopunct ha hd] at hs
          rcases List.mem_cons.mp hs with rfl | hs2
          · simp at hc
          · exact ih s hs2 c hc
    · cases hsp : splitPunct rest with
      | nil => exact absurd hsp (splitPunct_ne_nil rest)
      | cons s1 ss =>
        rw [splitPunct_cons_nopunct ha hsp] at hs
        rcases List.mem_cons.mp hs with rfl | hs2
        · rcases List.mem_cons.mp hc with rfl | hc2
          · simpa using ha
          · exact ih s1 (hsp ▸ List.mem_cons_self _ _) c hc2
        · exact ih s (hsp ▸ List.mem_cons_of_mem _ hs2) c hc

/-! ## Helper lemmas: segment selection -/

lemma foldlBest_mem (l : List (ℚ × List Char)) :
    ∀ (acc : Option (ℚ × List Char)) (x : ℚ × List Char),
      l.foldl (fun acc x =>
        match acc with
        | none => some x
        | some b => if x.1 > b.1 then some x else some b) acc = some x →
      acc = some x ∨ x ∈ l := by
  induction l with
  | nil => intro acc x h; exact Or.inl h
  | cons z zs ih =>
    intro acc x h
    rw [List.foldl_cons] at h
    rcases ih _ _ h with h2 | h2
    · cases acc with
      | none =>
        dsimp only at h2
        cases h2
        exact Or.inr (List.mem_cons_self _ _)
      | some b =>
        dsimp only at h2
        split_ifs at h2 <;> cases h2
        · exact Or.inr (List.mem_cons_self _ _)
        · exact Or.inl rfl
    · exact Or.inr (List.mem_cons_of_mem _ h2)

lemma bestOf_mem {l : List (ℚ × List Char)} {x : ℚ × List Char}
    (h : bestOf l = some x) : x ∈ l := by
  rcases foldlBest_mem l none x h with h2 | h2
  · cases h2
  · exact h2

lemma foldlBest_isSome (l : List (ℚ × List Char)) :
    ∀ b : ℚ × List Char, ∃ x,
      l.foldl (fun acc x =>
        match acc with
        | none => some x
        | some b => if x.1 > b.1 then some x else some b) (some b) = some x := by
  induction l with
  | nil => intro b; exact ⟨b, rfl⟩
  | cons z zs ih =>
    intro b
    rw [List.foldl_cons]
    dsimp only
    split_ifs <;> apply ih

lemma bestOf_isSome {l : List (ℚ × List Char)} (h : l ≠ []) :
    ∃ x, bestOf l = some x := by
  cases l with
  | nil => exact absurd rfl h
  | cons z zs => exact foldlBest_isSome zs z

/-! ## Helper lemmas: segments and cleaned segments -/

lemma mem_cleanedOf {t : List Char} {s : List Char} (h : s ∈ cleanedOf t) :
    ∃ s0 ∈ segmentsOf t, s = cleanSentence s0 ∧ 15 < s.length := by
  unfold cleanedOf at h
  rw [List.mem_filter] at h
  obtain ⟨hmem, hlen⟩ := h
  obtain ⟨s0, hs0, rfl⟩ := List.mem_map.mp hmem
  exact ⟨s0, hs0, rfl, by simpa using hlen⟩

lemma segmentsOf_min_len {t : List Char} {s0 : List Char}
    (h : s0 ∈ segmentsOf t) : 11 ≤ s0.length := by
  unfold segmentsOf at h
  rw [List.mem_filter] at h
  have := of_decide_eq_true h.2
  omega

lemma segmentsOf_no_punct {t : List Char} {s0 : List Char}
    (h : s0 ∈ segmentsOf t) : ∀ c ∈ s0, sentencePunct c = false := by
  unfold segmentsOf at h
  rw [List.mem_filter] at h
  obtain ⟨part, hpart, rfl⟩ := List.mem_map.mp h.1
  intro c hc
  exact splitPunct_no_punct t part hpart c (mem_trimChars hc)

lemma segmentsOf_sum_le (t : List Char) :
    ((segmentsOf t).map List.length).sum ≤ t.length := by
  unfold segmentsOf
  have h1 := (List.filter_sublist
    (l := (splitPunct t).map trimChars)
    (p := fun s => decide (s ≠ [] ∧ 10 < s.length))).map List.length
  have h2 := h1.sum_le_sum (fun a _ => Nat.zero_le a)
  refine le_trans h2 (le_trans ?_ (splitPunct_sum_le t))
  rw [List.map_map]
  exact List.sum_le_sum (fun s _ => trimChars_length_le s)

lemma cleanedOf_length_le (t : List Char) :
    (cleanedOf t).length ≤ (segmentsOf t).length := by
  unfold cleanedOf
  exact le_trans (List.length_filter_le _ _) (le_of_eq (List.length_map _ _))

lemma cleaned_no_punct {t s : List Char} (h : s ∈ cleanedOf t) :
    ∀ c ∈ s, sentencePunct c = false := by
  obtain ⟨s0, hs0, rfl, -⟩ := mem_cleanedOf h
  intro c hc
  rcases mem_cleanSentence hc with h2 | h2
  · exact segmentsOf_no_punct hs0 c h2
  · rw [h2]; decide

lemma sum_ge_eleven (L : List (List Char)) (h : ∀ s ∈ L, 11 ≤ s.length) :
    11 * L.length ≤ (L.map List.length).sum := by
  induction L with
  | nil => simp
  | cons s ss ih =>
    simp only [List.map_cons, List.sum_cons, List.length_cons]
    have h1 := h s (List.mem_cons_self _ _)
    have h2 := ih (fun x hx => h x (List.mem_cons_of_mem _ hx))
    omega

lemma sum_three_mem {L : List (List Char)} {s0 : List Char}
    (hmem : s0 ∈ L) (hlen : 3 ≤ L.length) (hall : ∀ s ∈ L, 11 ≤ s.length) :
    s0.length + 22 ≤ (L.map List.length).sum := by
  obtain ⟨l1, l2, rfl⟩ := List.append_of_mem hmem
  rw [List.map_append, List.sum_append, List.map_cons, List.sum_cons]
  have h1 := sum_ge_eleven l1 (fun s hs => hall s (List.mem_append_left _ hs))
  have h2 := sum_ge_eleven l2 (fun s hs =>
    hall s (List.mem_append_right _ (List.mem_cons_of_mem _ hs)))
  have h3 : l1.length + (l2.length + 1) = (l1 ++ s0 :: l2).length := by simp
  omega

/-- When more than two cleaned segments survive, `generateSummaryL`
returns the formatted best cleaned segment, which is a member of
`cleanedOf t`. -/
lemma generateSummaryL_big {t : List Char} (topics : List (List Char))
    (h : 2 < (cleanedOf t).length) :
    ∃ s ∈ cleanedOf t,
      generateSummaryL t topics =
        (if endsPunct (trimChars (collapseWS s)) then trimChars (collapseWS s)
         else trimChars (collapseWS s) ++ ['.']) := by
  have hseg : ¬ (segmentsOf t).length ≤ 2 := by
    have := cleanedOf_length_le t
    omega
  unfold generateSummaryL
  rw [if_neg hseg, if_neg (by omega)]
  dsimp only
  have hscne : (cleanedOf t).enum.map
      (fun p => (sentence_score topics (cleanedOf t).length p.1 p.2, p.2)) ≠ [] := by
    intro hnil
    have h0 : (cleanedOf t).length = 0 := by
      have := congrArg List.length hnil
      simpa using this
    omega
  obtain ⟨b, hb⟩ := bestOf_isSome hscne
  rw [hb]
  refine ⟨b.2, ?_, rfl⟩
  have hbmem := bestOf_mem hb
  obtain ⟨p, hp, hpb⟩ := List.mem_map.mp hbmem
  have hb2 : b.2 = p.2 := by rw [← hpb]
  rw [hb2]
  have hsnd := List.enum_map_snd (cleanedOf t)
  rw [← hsnd]
  exact List.mem_map_of_mem _ hp

/-! ## Claim theorems: user matching -/

/-- C1: for every structurally valid input (non-identical users, both
psychometric profiles present) on which `compute_compatibility` returns
normally, the returned score lies in the closed interval `[0, 1]`; in
particular the similarity on the main path is clamped to `[0, 1]` before
being returned.  Holds for every cosine and vectorizer collaborator. -/
theorem C1_score_in_unit_interval
    (cos_sim : List ℚ → List ℚ → Option ℚ) (vectorize : List String → List ℚ)
    (u1 u2 : UserData) (topics : List String) (tw pw : ℚ)
    (p1 p2 : List ℚ) (q : ℚ) (msg : String)
    (hid : u1.id ≠ u2.id)
    (h1 : u1.psychometrics = some p1) (h2 : u2.psychometrics = some p2)
    (hok : compute_compatibility cos_sim vectorize u1 u2 topics tw pw = .ok (q, msg)) :
    0 ≤ q ∧ q ≤ 1 := by
  by_cases hemp : p1 = [] ∨ p2 = []
  · rw [compute_eq_of_empty hid h1 h2 hemp] at hok
    simp only [Except.ok.injEq, Prod.mk.injEq] at hok
    rw [← hok.1]
    norm_num
  · push_neg at hemp
    obtain ⟨x1, xs1, rfl⟩ := List.exists_cons_of_ne_nil hemp.1
    obtain ⟨x2, xs2, rfl⟩ := List.exists_cons_of_ne_nil hemp.2
    obtain ⟨n1, hn1⟩ := normalize_isSome x1 xs1
    obtain ⟨n2, hn2⟩ := normalize_isSome x2 xs2
    rw [compute_eq_of_valid hid h1 h2 hemp.1 hemp.2 hn1 hn2] at hok
    split_ifs at hok with hw
    cases hsp : score_path cos_sim vectorize topics
        (resample_psychometrics n1 (max (max n1.length n2.length) 5))
        (resample_psychometrics n2 (max (max n1.length n2.length) 5)) tw pw with
    | none =>
      rw [hsp] at hok
      simp only [Except.ok.injEq, Prod.mk.injEq] at hok
      rw [← hok.1]
      norm_num
    | some s =>
      rw [hsp] at hok
      simp only [Except.ok.injEq, Prod.mk.injEq] at hok
      rw [← hok.1]
      exact ⟨clamp_nonneg s, clamp_le_one s⟩

/-- Witness for C1 at a concrete input: present-but-empty profiles give
the degenerate score 0, which lies in `[0, 1]`. -/
theorem C1_score_in_unit_interval_witness : (0 : ℚ) ≤ 0 ∧ (0 : ℚ) ≤ 1 :=
  C1_score_in_unit_interval (fun _ _ => some 3) (fun _ => [])
    ⟨"alice", some []⟩ ⟨"bob", some []⟩ [] (1/2) 1 [] [] 0
    "No psychometric data available" (by decide) rfl rfl rfl

/-- C2: the score component of `compute_compatibility` is symmetric in the
two users, for any fixed topics and weights, whenever the cosine
collaborator is symmetric (exact over `ℚ`; "up to floating-point error"
in the float source). -/
theorem C2_score_symmetric
    (cos_sim : List ℚ → List ℚ → Option ℚ) (vectorize : List String → List ℚ)
    (u1 u2 : UserData) (topics : List String) (tw pw : ℚ)
    (hsym : ∀ a b, cos_sim a b = cos_sim b a) (_hid : u1.id ≠ u2.id) :
    (compute_compatibility cos_sim vectorize u1 u2 topics tw pw).map Prod.fst =
      (compute_compatibility cos_sim vectorize u2 u1 topics tw pw).map Prod.fst := by
  rw [compute_swap hsym]

/-- Witness for C2 at a concrete input pair. -/
theorem C2_score_symmetric_witness :
    (compute_compatibility (fun _ _ => some (1/2)) (fun _ => [1])
        ⟨"alice", some [1, 2, 3]⟩ ⟨"bob", some [2, 3]⟩ ["topic"] (1/2) 1).map Prod.fst =
      (compute_compatibility (fun _ _ => some (1/2)) (fun _ => [1])
        ⟨"bob", some [2, 3]⟩ ⟨"alice", some [1, 2, 3]⟩ ["topic"] (1/2) 1).map Prod.fst :=
  C2_score_symmetric (fun _ _ => some (1/2)) (fun _ => [1])
    ⟨"alice", some [1, 2, 3]⟩ ⟨"bob", some [2, 3]⟩ ["topic"] (1/2) 1
    (fun _ _ => rfl) (by decide)

/-- C3: error taxonomy of the scorer for non-identical users, for every
cosine and vectorizer collaborator: `missingData` exactly on structurally
absent psychometrics; present-but-empty data returns the degenerate 0.0
result; `invalidWeight` exactly on a negative weight for present,
non-empty data; and every other structurally valid input returns
normally. -/
theorem C3_error_taxonomy
    (cos_sim : List ℚ → List ℚ → Option ℚ) (vectorize : List String → List ℚ)
    (u1 u2 : UserData) (topics : List String) (tw pw : ℚ)
    (hid : u1.id ≠ u2.id) :
    (compute_compatibility cos_sim vectorize u1 u2 topics tw pw = .error .missingData ↔
      u1.psychometrics = none ∨ u2.psychometrics = none) ∧
    (∀ p1 p2, u1.psychometrics = some p1 → u2.psychometrics = some p2 →
      (p1 = [] ∨ p2 = []) →
      compute_compatibility cos_sim vectorize u1 u2 topics tw pw =
        .ok (0, "No psychometric data available")) ∧
    (∀ p1 p2, u1.psychometrics = some p1 → u2.psychometrics = some p2 →
      p1 ≠ [] → p2 ≠ [] →
      (compute_compatibility cos_sim vectorize u1 u2 topics tw pw = .error .invalidWeight ↔
        tw < 0 ∨ pw < 0)) ∧
    (∀ p1 p2, u1.psychometrics = some p1 → u2.psychometrics = some p2 →
      p1 ≠ [] → p2 ≠ [] → ¬ (tw < 0 ∨ pw < 0) →
      ∃ q s, compute_compatibility cos_sim vectorize u1 u2 topics tw pw = .ok (q, s)) := by
  refine ⟨⟨?_, ?_⟩, ?_, ?_, ?_⟩
  · intro herr
    by_contra habs
    push_neg at habs
    obtain ⟨p1, h1⟩ := Option.ne_none_iff_exists'.mp habs.1
    obtain ⟨p2, h2⟩ := Option.ne_none_iff_exists'.mp habs.2
    by_cases hemp : p1 = [] ∨ p2 = []
    · rw [compute_eq_of_empty hid h1 h2 hemp] at herr
      cases herr
    · push_neg at hemp
      obtain ⟨x1, xs1, rfl⟩ := List.exists_cons_of_ne_nil hemp.1
      obtain ⟨x2, xs2, rfl⟩ := List.exists_cons_of_ne_nil hemp.2
      obtain ⟨n1, hn1⟩ := normalize_isSome x1 xs1
      obtain ⟨n2, hn2⟩ := normalize_isSome x2 xs2
      rw [compute_eq_of_valid hid h1 h2 hemp.1 hemp.2 hn1 hn2] at herr
      split_ifs at herr with hw
      · cases herr
      · cases hsp : score_path cos_sim vectorize topics
            (resample_psychometrics n1 (max (max n1.length n2.length) 5))
            (resample_psychometrics n2 (max (max n1.length n2.length) 5)) tw pw with
        | none => rw [hsp] at herr; cases herr
        | some s => rw [hsp] at herr; cases herr
  · intro habs
    obtain ⟨id1, psy1⟩ := u1
    obtain ⟨id2, psy2⟩ := u2
    simp only at habs hid
    unfold compute_compatibility
    rw [if_neg hid]
    rcases habs with h | h
    · rw [h]
    · rw [h]
      cases psy1 <;> rfl
  · intro p1 p2 h1 h2 hemp
    exact compute_eq_of_empty hid h1 h2 hemp
  · intro p1 p2 h1 h2 hne1 hne2
    obtain ⟨x1, xs1, rfl⟩ := List.exists_cons_of_ne_nil hne1
    obtain ⟨x2, xs2, rfl⟩ := List.exists_cons_of_ne_nil hne2
    obtain ⟨n1, hn1⟩ := normalize_isSome x1 xs1
    obtain ⟨n2, hn2⟩ := normalize_isSome x2 xs2
    rw [compute_eq_of_valid hid h1 h2 hne1 hne2 hn1 hn2]
    constructor
    · intro herr
      by_cases hw : tw < 0 ∨ pw < 0
      · exact hw
      · rw [if_neg hw] at herr
        cases hsp : score_path cos_sim vectorize topics
            (resample_psychometrics n1 (max (max n1.length n2.length) 5))
            (resample_psychometrics n2 (max (max n1.length n2.length) 5)) tw pw with
        | none => rw [hsp] at herr; cases herr
        | some s => rw [hsp] at herr; cases herr
    · intro hw
      rw [if_pos hw]
  · intro p1 p2 h1 h2 hne1 hne2 hw
    obtain ⟨x1, xs1, rfl⟩ := List.exists_cons_of_ne_nil hne1
    obtain ⟨x2, xs2, rfl⟩ := List.exists_cons_of_ne_nil hne2
    obtain ⟨n1, hn1⟩ := normalize_isSome x1 xs1
    obtain ⟨n2, hn2⟩ := normalize_isSome x2 xs2
    rw [compute_eq_of_valid hid h1 h2 hne1 hne2 hn1 hn2, if_neg hw]
    cases hsp : score_path cos_sim vectorize topics
        (resample_psychometrics n1 (max (max n1.length n2.length) 5))
        (resample_psychometrics n2 (max (max n1.length n2.length) 5)) tw pw with
    | none => exact ⟨0, "Unable to compute compatibility score", rfl⟩
    | some s =>
      exact ⟨min (max s 0) 1, interpret_score (min (max s 0) 1), rfl⟩

/-- Witness for C3 at concrete inputs, one per conjunct: absent data
raises `missingData`; empty data returns the degenerate 0.0 result; a
negative weight with valid data raises `invalidWeight`; valid data with
non-negative weights returns normally. -/
theorem C3_error_taxonomy_witness :
    compute_compatibility (fun _ _ => some 0) (fun _ => [])
        ⟨"a", none⟩ ⟨"b", some [1]⟩ [] 1 1 = .error .missingData ∧
    compute_compatibility (fun _ _ => some 0) (fun _ => [])
        ⟨"a", some []⟩ ⟨"b", some [1]⟩ [] 1 1 =
      .ok (0, "No psychometric data available") ∧
    compute_compatibility (fun _ _ => some 0) (fun _ => [])
        ⟨"a", some [1, 2]⟩ ⟨"b", some [3]⟩ [] (-1) 1 = .error .invalidWeight ∧
    ∃ q s, compute_compatibility (fun _ _ => some 0) (fun _ => [])
        ⟨"a", some [1, 2]⟩ ⟨"b", some [3]⟩ [] 1 1 = .ok (q, s) := by
  refine ⟨?_, ?_, ?_, ?_⟩
  · exact (C3_error_taxonomy (fun _ _ => some 0) (fun _ => [])
      ⟨"a", none⟩ ⟨"b", some [1]⟩ [] 1 1 (by decide)).1.mpr (Or.inl rfl)
  · exact (C3_error_taxonomy (fun _ _ => some 0) (fun _ => [])
      ⟨"a", some []⟩ ⟨"b", some [1]⟩ [] 1 1 (by decide)).2.1 [] [1] rfl rfl (Or.inl rfl)
  · exact ((C3_error_taxonomy (fun _ _ => some 0) (fun _ => [])
      ⟨"a", some [1, 2]⟩ ⟨"b", some [3]⟩ [] (-1) 1 (by decide)).2.2.1 [1, 2] [3]
      rfl rfl (by decide) (by decide)).mpr (Or.inl (by norm_num))
  · exact (C3_error_taxonomy (fun _ _ => some 0) (fun _ => [])
      ⟨"a", some [1, 2]⟩ ⟨"b", some [3]⟩ [] 1 1 (by decide)).2.2.2 [1, 2] [3]
      rfl rfl (by decide) (by decide) (by norm_num)

/-- C4: whenever the two users are the same identity, the scorer
short-circuits to score 1.0 with the "identical users" interpretation,
regardless of psychometric data or weights. -/
theorem C4_identical_users
    (cos_sim : List ℚ → List ℚ → Option ℚ) (vectorize : List String → List ℚ)
    (u1 u2 : UserData) (topics : List String) (tw pw : ℚ)
    (hid : u1.id = u2.id) :
    compute_compatibility cos_sim vectorize u1 u2 topics tw pw =
      .ok (1, "Identical users (perfect match)") := by
  unfold compute_compatibility
  rw [if_pos hid]

/-- Witness for C4 at a concrete input: same id, absent psychometrics and
negative weights still give `(1.0, "Identical users (perfect match)")`. -/
theorem C4_identical_users_witness :
    compute_compatibility (fun _ _ => none) (fun _ => [])
      ⟨"u1", none⟩ ⟨"u1", none⟩ [] (-1) (-1) =
      .ok (1, "Identical users (perfect match)") :=
  C4_identical_users _ _ _ _ _ _ _ rfl

/-- C5 counterexample: on the empty profile, which vacuously has all its
values identical, `normalize_psychometrics` does not return the empty
constant vector — the source evaluates `psych_array[0]` and raises
`IndexError` (modelled by `none`). -/
theorem C5_normalize_empty_counterexample :
    normalize_psychometrics ([] : List ℚ) = none ∧
      normalize_psychometrics ([] : List ℚ) ≠
        some (List.replicate ([] : List ℚ).length (1/2)) := by
  constructor
  · rfl
  · decide

/-- C5 (amended to non-empty profiles): `normalize_psychometrics` maps any
non-empty profile with all values identical to the constant `0.5` vector
of the original length, and any other non-empty profile to
`(x - min) / (max - min)` applied elementwise and clamped to `[0, 1]`. -/
theorem C5_normalize_minmax
    (l : List ℚ) (hl : l ≠ []) :
    ((∀ y ∈ l, y = l.headI) →
      normalize_psychometrics l = some (List.replicate l.length (1/2))) ∧
    ((¬ ∀ y ∈ l, y = l.headI) →
      normalize_psychometrics l = some (l.map (fun y =>
        min (max ((y - l.foldl min l.headI) /
          (l.foldl max l.headI - l.foldl min l.headI)) 0) 1))) := by
  obtain ⟨x, xs, rfl⟩ := List.exists_cons_of_ne_nil hl
  constructor
  · intro hall
    have hall2 : ∀ y ∈ x :: xs, y = x := by simpa using hall
    rw [normalize_cons, if_pos hall2]
    simp
  · intro hnall
    have hnall2 : ¬ ∀ y ∈ x :: xs, y = x := by simpa using hnall
    rw [normalize_cons, if_neg hnall2]
    simp only [List.headI_cons, List.foldl_cons, min_self, max_self]

/-- Witness for C5 at concrete inputs: a constant profile normalizes to
the `0.5` vector (in particular `[3,3,3] ↦ [0.5,0.5,0.5]`) and a
non-constant profile to its clamped min-max rescaling. -/
theorem C5_normalize_minmax_witness :
    normalize_psychometrics [3, 3, 3] = some [1/2, 1/2, 1/2] ∧
      normalize_psychometrics [1, 3, 2] = some [0, 1, 1/2] := by
  constructor
  · have h := (C5_normalize_minmax [3, 3, 3] (by decide)).1 (by decide)
    rw [h]
    decide
  · have h := (C5_normalize_minmax [1, 3, 2] (by decide)).2 (by decide)
    rw [h]
    decide

/-- C9: for non-identical users with present, non-empty psychometric
profiles, the "all-zero after normalization and resampling" guard is
unreachable — `compute_compatibility` can never return the degenerate
`(0.0, "No psychometric data available")` result on such inputs. -/
theorem C9_zero_guard_unreachable
    (cos_sim : List ℚ → List ℚ → Option ℚ) (vectorize : List String → List ℚ)
    (u1 u2 : UserData) (topics : List String) (tw pw : ℚ) (p1 p2 : List ℚ)
    (hid : u1.id ≠ u2.id)
    (h1 : u1.psychometrics = some p1) (hne1 : p1 ≠ [])
    (h2 : u2.psychometrics = some p2) (hne2 : p2 ≠ []) :
    compute_compatibility cos_sim vectorize u1 u2 topics tw pw ≠
      .ok (0, "No psychometric data available") := by
  obtain ⟨x1, xs1, rfl⟩ := List.exists_cons_of_ne_nil hne1
  obtain ⟨x2, xs2, rfl⟩ := List.exists_cons_of_ne_nil hne2
  obtain ⟨n1, hn1⟩ := normalize_isSome x1 xs1
  obtain ⟨n2, hn2⟩ := normalize_isSome x2 xs2
  rw [compute_eq_of_valid hid h1 h2 (by simp) (by simp) hn1 hn2]
  split_ifs with hw
  · intro h
    cases h
  · cases hsp : score_path cos_sim vectorize topics
        (resample_psychometrics n1 (max (max n1.length n2.length) 5))
        (resample_psychometrics n2 (max (max n1.length n2.length) 5)) tw pw with
    | none =>
      show Except.ok ((0 : ℚ), "Unable to compute compatibility score") ≠
        Except.ok ((0 : ℚ), "No psychometric data available")
      intro h
      simp only [Except.ok.injEq, Prod.mk.injEq] at h
      exact absurd h.2 (by decide)
    | some s =>
      show Except.ok (min (max s 0) 1, interpret_score (min (max s 0) 1)) ≠
        Except.ok ((0 : ℚ), "No psychometric data available")
      intro h
      simp only [Except.ok.injEq, Prod.mk.injEq] at h
      exact interpret_score_ne_nodata _ h.2

/-- Witness for C9 at a concrete input: with non-empty profiles the result
is the main-path score, not the degenerate "no data" answer. -/
theorem C9_zero_guard_unreachable_witness :
    compute_compatibility (fun _ _ => some 0) (fun _ => [])
      ⟨"alice", some [1, 2]⟩ ⟨"bob", some [4]⟩ [] (1/2) 1 ≠
      .ok (0, "No psychometric data available") :=
  C9_zero_guard_unreachable (fun _ _ => some 0) (fun _ => [])
    ⟨"alice", some [1, 2]⟩ ⟨"bob", some [4]⟩ [] (1/2) 1 [1, 2] [4]
    (by decide) rfl (by decide) rfl (by decide)

/-! ## Claim theorems: summarizer -/

/-- C6: `generate_summary` is total and echoes the transcript verbatim
whenever at most 2 segments survive the initial split-and-filter or at
most 2 segments survive filler-cleaning; in particular
`generate_summary "" [] = ""`. -/
theorem C6_summary_early_exit :
    (∀ (t : String) (topics : List String),
      (segmentsOf t.data).length ≤ 2 → generate_summary t topics = t) ∧
    (∀ (t : String) (topics : List String),
      (cleanedOf t.data).length ≤ 2 → generate_summary t topics = t) ∧
    generate_summary "" [] = "" := by
  refine ⟨?_, ?_, by decide⟩
  · intro t topics h
    unfold generate_summary generateSummaryL
    rw [if_pos h]
  · intro t topics h
    unfold generate_summary generateSummaryL
    by_cases h1 : (segmentsOf t.data).length ≤ 2
    · rw [if_pos h1]
    · rw [if_neg h1, if_pos h]

/-- Witness for C6 at a concrete input: a one-segment transcript is
returned unchanged through both early exits. -/
theorem C6_summary_early_exit_witness :
    generate_summary "Short text." ["test"] = "Short text." ∧
    generate_summary "so uh well. so uh well. so uh well. so uh well." [] =
      "so uh well. so uh well. so uh well. so uh well." :=
  ⟨C6_summary_early_exit.1 "Short text." ["test"] (by decide),
    C6_summary_early_exit.2.1 "so uh well. so uh well. so uh well. so uh well." []
      (by decide)⟩

/-- C7: the position score of segment `i` among `n` cleaned segments is
decided first-match-wins, in source order: first 10% of indices score
0.15, then last 20% score 0.15, then middle 30%-70% score 0.25, and all
remaining indices score 0.1. -/
theorem C7_position_bands (n i : ℕ) :
    ((i : ℚ) < n * 0.1 → position_score n i = 0.15) ∧
    (¬ ((i : ℚ) < n * 0.1) → (i : ℚ) > n * 0.8 → position_score n i = 0.15) ∧
    (¬ ((i : ℚ) < n * 0.1) → ¬ ((i : ℚ) > n * 0.8) →
      (n * 0.3 ≤ (i : ℚ) ∧ (i : ℚ) ≤ n * 0.7) → position_score n i = 0.25) ∧
    (¬ ((i : ℚ) < n * 0.1) → ¬ ((i : ℚ) > n * 0.8) →
      ¬ (n * 0.3 ≤ (i : ℚ) ∧ (i : ℚ) ≤ n * 0.7) → position_score n i = 0.1) := by
  unfold position_score
  refine ⟨?_, ?_, ?_, ?_⟩
  · intro h1
    rw [if_pos h1]
  · intro h1 h2
    rw [if_neg h1, if_pos h2]
  · intro h1 h2 h3
    rw [if_neg h1, if_neg h2, if_pos h3]
  · intro h1 h2 h3
    rw [if_neg h1, if_neg h2, if_neg h3]

/-- Witness for C7: with 3 segments, index 0 is in the first band, index 1
is in the overlap region and takes the middle band; with 10 segments,
index 8 is outside every band and falls through to the default score. -/
theorem C7_position_bands_witness :
    position_score 3 0 = 0.15 ∧ position_score 3 1 = 0.25 ∧
      position_score 10 8 = 0.1 :=
  ⟨(C7_position_bands 3 0).1 (by decide),
    (C7_position_bands 3 1).2.2.1 (by decide) (by decide) (by decide),
    (C7_position_bands 10 8).2.2.2 (by decide) (by decide) (by decide)⟩

/-- C8: whenever more than 2 cleaned segments survive, the summary is no
longer than the input transcript. -/
theorem C8_summary_length_le (t : String) (topics : List String)
    (h : 2 < (cleanedOf t.data).length) :
    (generate_summary t topics).length ≤ t.length := by
  obtain ⟨s, hs, heq⟩ := generateSummaryL_big (topics.map String.data) h
  have hlen : (generate_summary t topics).length =
      (generateSummaryL t.data (topics.map String.data)).length := rfl
  rw [hlen, heq]
  obtain ⟨s0, hs0, hseq, hslen⟩ := mem_cleanedOf hs
  have h1 : (trimChars (collapseWS s)).length ≤ s.length :=
    le_trans (trimChars_length_le _) (collapseWSAux_length_le _ _)
  have h2 : s.length ≤ s0.length := by
    rw [hseq]
    exact cleanSentence_length_le s0
  have h3 : s0.length + 22 ≤ ((segmentsOf t.data).map List.length).sum := by
    refine sum_three_mem hs0 ?_ (fun s1 hs1 => segmentsOf_min_len hs1)
    have := cleanedOf_length_le t.data
    omega
  have h4 := segmentsOf_sum_le t.data
  have hT : t.length = t.data.length := rfl
  rw [hT]
  split_ifs with hp
  · omega
  · rw [List.length_append]
    simp only [List.length_cons, List.length_nil]
    omega

/-- Witness for C8 at a concrete input with 3 cleaned segments. -/
theorem C8_summary_length_le_witness :
    (generate_summary
        "abcdefghijklmnop. qrstvwxyzabcdefg. hijklmnopqrstvwx." []).length ≤
      ("abcdefghijklmnop. qrstvwxyzabcdefg. hijklmnopqrstvwx." : String).length :=
  C8_summary_length_le
    "abcdefghijklmnop. qrstvwxyzabcdefg. hijklmnopqrstvwx." [] (by decide)

/-- C10: cleaned candidate segments contain no sentence-terminal
punctuation, so the interrogative bonus is never awarded (the
question/future bonus degenerates to the future-keyword test), and
whenever a best segment is selected the returned summary ends with a
period. -/
theorem C10_no_punct_in_candidates :
    (∀ (t : List Char), ∀ s ∈ cleanedOf t, ∀ c ∈ s, sentencePunct c = false) ∧
    (∀ (t : List Char), ∀ s ∈ cleanedOf t,
      question_future_bonus s =
        if futureWords.any (fun w => isSubL w (lowerL s)) then 0.1 else 0) ∧
    (∀ (t : String) (topics : List String), 2 < (cleanedOf t.data).length →
      (generate_summary t topics).data.getLast? = some '.') := by
  refine ⟨fun t s hs => cleaned_no_punct hs, ?_, ?_⟩
  · intro t s hs
    unfold question_future_bonus
    rw [if_neg ?_]
    intro hq
    have := cleaned_no_punct hs '?' hq
    simp [sentencePunct] at this
  · intro t topics h
    obtain ⟨s, hs, heq⟩ := generateSummaryL_big (topics.map String.data) h
    have hgs : (generate_summary t topics).data =
        generateSummaryL t.data (topics.map String.data) := rfl
    rw [hgs, heq]
    have hbnp : ∀ c ∈ trimChars (collapseWS s), sentencePunct c = false := by
      intro c hc
      rcases mem_collapseWSAux (mem_trimChars hc) with h2 | h2
      · exact cleaned_no_punct hs c h2
      · rw [h2]; decide
    have hep : endsPunct (trimChars (collapseWS s)) = false := by
      unfold endsPunct
      cases hlast : (trimChars (collapseWS s)).getLast? with
      | none => rfl
      | some c => exact hbnp c (List.mem_of_getLast?_eq_some hlast)
    rw [hep]
    simp only [Bool.false_eq_true, if_false]
    exact List.getLast?_concat _

/-- Witness for C10 at a concrete input: the first cleaned candidate holds
no punctuation and earns no interrogative bonus, and the summary of a
3-segment transcript ends with a period. -/
theorem C10_no_punct_in_candidates_witness :
    sentencePunct 'a' = false ∧
    question_future_bonus
        ("abcdefghijklmnop" : String).data =
      (if futureWords.any (fun w =>
          isSubL w (lowerL ("abcdefghijklmnop" : String).data)) then 0.1 else 0) ∧
    (generate_summary
        "abcdefghijklmnop. qrstvwxyzabcdefg. hijklmnopqrstvwx." []).data.getLast? =
      some '.' :=
  ⟨C10_no_punct_in_candidates.1
      ("abcdefghijklmnop. qrstvwxyzabcdefg. hijklmnopqrstvwx." : String).data
      ("abcdefghijklmnop" : String).data (by decide) 'a' (by decide),
    C10_no_punct_in_candidates.2.1
      ("abcdefghijklmnop. qrstvwxyzabcdefg. hijklmnopqrstvwx." : String).data
      ("abcdefghijklmnop" : String).data (by decide),
    C10_no_punct_in_candidates.2.2
      "abcdefghijklmnop. qrstvwxyzabcdefg. hijklmnopqrstvwx." [] (by decide)⟩

/-! ## Executable sanity checks of the embedding -/

example : normalize_psychometrics [3, 3, 3] = some [0.5, 0.5, 0.5] := by decide

example : normalize_psychometrics [1, 2] = some [0, 1] := by decide

example : resample_psychometrics [0, 1] 5 = [0, 1/4, 1/2, 3/4, 1] := by decide

example : resample_psychometrics [1/2] 5 = List.replicate 5 (1/2) := by decide

example : interpret_score 0.95 = "Exceptionally compatible - Perfect match" := by decide

example : generate_summary "" [] = "" := by decide

example : generate_summary "Short text." ["test"] = "Short text." := by decide

example : splitPunct ("a.. b!c" : String).data = [['a'], [' ', 'b'], ['c']] := by decide

example : cleanSentence ("  so, Mars um landing  " : String).data =
    (", Mars landing" : String).data := by decide

example : generate_summary "We discussed the Mars mission planning. The Starships will be launched next year. Landing on Mars is the main challenge. We need to ensure safe landing procedures." ["mars", "starships", "landing"] = "Landing on Mars is the main challenge." := by decide
